import Mathlib

/-!
Shallow embedding of the SmartCampus (UMKC PolicyPulse) pipeline:
keyword extraction and retrieval (src/app/app.py), evaluation logging
(src/evaluator.py and src/modeling/evaluator.py), telemetry history limits
(src/features/feature_store.py), the ingestion scheduler
(src/ingestion/scheduler.py) and the text chunker
(src/ingestion/01_extract_chunk.py).

Machine integers are modelled as Int/Nat, dataframes as lists of records,
the Snowflake row store as an explicit table (a list of rows) threaded
through the functions that query or insert into it.  Floating point score
statistics are modelled over Rat.
-/

namespace SmartCampus

/-- Stopword set from src/app/app.py lines 38-45 (a Python set, modelled as
a list; only membership is used). -/
def STOPWORDS : List String := [
  "a", "an", "the", "and", "or", "but", "if", "then", "else", "so",
  "is", "are", "was", "were", "be", "been", "being",
  "do", "does", "did", "to", "of", "in", "on", "for", "with", "at", "by", "from", "as",
  "how", "much", "many", "what", "when", "where", "who", "whom", "why",
  "i", "me", "my", "you", "your", "we", "our", "they", "their",
  "can", "could", "should", "would", "may", "might", "will", "shall"]

/-- Whitespace class of Python's default str.strip and of the regex `\s`
over ASCII. -/
def isPyWs (c : Char) : Bool :=
  c == ' ' || c == '\t' || c == '\n' || c == '\r' || c == '\x0b' || c == '\x0c'

/-- Python str.lower over a list of characters (agrees with Char.toLower
on ASCII, the alphabet the tokenizer retains). -/
def lowerChars (cs : List Char) : List Char :=
  cs.map Char.toLower

/-- Maximal runs of alphanumeric characters, as produced by
re.findall of the pattern `[a-zA-Z0-9]+` in src/app/app.py line 67.
`cur` accumulates the current run in reverse. -/
def tokensFrom (cur : List Char) : List Char → List (List Char)
  | [] => if cur.isEmpty then [] else [cur.reverse]
  | c :: rest =>
    if c.isAlphanum then tokensFrom (c :: cur) rest
    else if cur.isEmpty then tokensFrom [] rest
    else cur.reverse :: tokensFrom [] rest

/-- Tokenization of the lowercased query (src/app/app.py line 67). -/
def tokensOf (s : String) : List String :=
  (tokensFrom [] (lowerChars s.data)).map (fun cs => String.mk cs)

/-- Filter applied to each token (src/app/app.py line 68):
not a stopword and at least 3 characters long. -/
def keepTerm (t : String) : Bool :=
  !(STOPWORDS.contains t) && decide (3 ≤ t.length)

/-- Order-preserving dedup loop of src/app/app.py lines 69-72:
`seen` is the set of already emitted terms. -/
def dedupAux (seen : List String) : List String → List String
  | [] => []
  | t :: rest => if t ∈ seen then dedupAux seen rest else t :: dedupAux (t :: seen) rest

/-- Python slice `l[:m]` for an arbitrary integer `m` (src/app/app.py line 73):
a non-negative `m` keeps the first `m` elements, a negative `m` drops the
last `-m` elements. -/
def pySliceTo (l : List String) (m : Int) : List String :=
  if 0 ≤ m then l.take m.toNat else l.take ((l.length : Int) + m).toNat

/-- extract_keywords from src/app/app.py lines 66-73. -/
def extract_keywords (query : String) (maxTerms : Int := 6) : List String :=
  pySliceTo (dedupAux [] ((tokensOf query).filter keepTerm)) maxTerms

/-- One row of the DOC_CHUNKS_FEATURED table. -/
structure Chunk where
  docName : String
  pageNum : Int
  chunkId : String
  chunkText : String
  textLength : Int
deriving DecidableEq

/-- Does `needle` occur at the head of the haystack? -/
def listStartsWith : List Char → List Char → Bool
  | _, [] => true
  | [], _ :: _ => false
  | a :: as, b :: bs => a == b && listStartsWith as bs

/-- Does `needle` occur contiguously anywhere in the haystack? -/
def hasSub (needle : List Char) : List Char → Bool
  | [] => needle.isEmpty
  | c :: rest => listStartsWith (c :: rest) needle || hasSub needle rest

/-- Snowflake `CHUNK_TEXT ILIKE pat` with pattern built as a
percent-wrapped term (src/app/app.py lines 156-157, 166-167): a
case-insensitive substring test.  Extracted terms are alphanumeric, so
there are no wildcard characters inside the term itself. -/
def ilikeContains (text pat : String) : Bool :=
  hasSub (lowerChars pat.data) (lowerChars text.data)

/-- Per-row SCORE: the sum of the 0/1 IFF indicators, one per term
(src/app/app.py lines 157, 160). -/
def scoreOf (terms : List String) (c : Chunk) : Nat :=
  terms.countP (fun t => ilikeContains c.chunkText t)

/-- Comes-before test of the ORDER BY clause (src/app/app.py line 163):
score descending, then text_length descending. -/
def retrievalLe (a b : Chunk × Nat) : Bool :=
  decide (b.2 < a.2) || (decide (a.2 = b.2) && decide (b.1.textLength ≤ a.1.textLength))

/-- Structural insertion into a list sorted by `le`. -/
def insertLe (le : Chunk × Nat → Chunk × Nat → Bool) (a : Chunk × Nat) :
    List (Chunk × Nat) → List (Chunk × Nat)
  | [] => [a]
  | b :: bs => if le a b then a :: b :: bs else b :: insertLe le a bs

/-- Deterministic model of the SQL ORDER BY (ties among equal keys are left
in a fixed deterministic order; no claim depends on tie order). -/
def sortRows (le : Chunk × Nat → Chunk × Nat → Bool) : List (Chunk × Nat) → List (Chunk × Nat)
  | [] => []
  | a :: rest => insertLe le a (sortRows le rest)

/-- Result shape of _run_retrieval, extended with an explicit flag
recording whether the row store was queried. -/
structure RetrievalOut where
  rows : List (Chunk × Nat)
  terms : List String
  storeAccessed : Bool
deriving DecidableEq

/-- _run_retrieval from src/app/app.py lines 151-180: extract terms with
the default max_terms of 6; with no terms return empty results without
touching the store; otherwise run the OR/ILIKE query with the computed
SCORE column, ordered and limited by `LIMIT int(topk)`.  There is no
validation of `topk`: the integer is interpolated into the SQL as is
(`Int.toNat` renders the zero-or-fewer-rows effect of a non-positive
LIMIT reaching the server; the round trip happens either way, which is
what `storeAccessed` records). -/
def runRetrieval (store : List Chunk) (userQuery : String) (topk : Int) : RetrievalOut :=
  let terms := extract_keywords userQuery 6
  if terms.isEmpty then { rows := [], terms := terms, storeAccessed := false }
  else
    let matched := store.filter (fun c => terms.any (fun t => ilikeContains c.chunkText t))
    let ranked := sortRows retrievalLe (matched.map (fun c => (c, scoreOf terms c)))
    { rows := ranked.take topk.toNat, terms := terms, storeAccessed := true }

/-- One row of the EVAL_METRICS table (float columns modelled as Rat). -/
structure EvalRecord where
  evalId : String
  runId : String
  version : String
  queryRaw : String
  topk : Int
  rowsReturned : Nat
  avgScore : Rat
  maxScore : Rat
  minScore : Rat
  latencyMs : Int
  keywordCount : Int
deriving DecidableEq

/-- Record built by log_eval (src/evaluator.py lines 66-93 and
src/modeling/evaluator.py lines 215-245, identical on this branch
structure): an empty result frame — which is also the only case in which
the SCORE column is absent — yields 0.0 for all three score statistics
and zero rows returned; otherwise the mean, max and min of the SCORE
column are taken.  `scores` is the SCORE column of the result frame. -/
def mkEvalRecord (evalId runId version queryRaw : String) (scores : List Int)
    (latencyMs keywordCount topk : Int) : EvalRecord :=
  if scores.isEmpty then
    { evalId := evalId, runId := runId, version := version, queryRaw := queryRaw,
      topk := topk, rowsReturned := 0, avgScore := 0, maxScore := 0, minScore := 0,
      latencyMs := latencyMs, keywordCount := keywordCount }
  else
    { evalId := evalId, runId := runId, version := version, queryRaw := queryRaw,
      topk := topk, rowsReturned := scores.length,
      avgScore := (scores.sum : Rat) / (scores.length : Rat),
      maxScore := ((scores.foldl max (scores.headD 0) : Int) : Rat),
      minScore := ((scores.foldl min (scores.headD 0) : Int) : Rat),
      latencyMs := latencyMs, keywordCount := keywordCount }

/-- log_eval as a state transition on the EVAL_METRICS table: a single
append of the computed record (src/evaluator.py lines 82-96). -/
def log_eval (table : List EvalRecord) (evalId runId version queryRaw : String)
    (scores : List Int) (latencyMs keywordCount topk : Int) : List EvalRecord :=
  table ++ [mkEvalRecord evalId runId version queryRaw scores latencyMs keywordCount topk]

/-- Effective LIMIT used by load_metrics_history in src/evaluator.py
lines 125-143: the caller's limit is interpolated into the SQL f-string
unchanged. -/
def evaluatorHistoryLimit (limit : Int) : Int := limit

/-- Effective LIMIT used by load_metrics_history in
src/modeling/evaluator.py line 278: `max(1, min(int(limit), 1000))`. -/
def modelingHistoryLimit (limit : Int) : Int := max 1 (min limit 1000)

/-- Effective LIMIT used by load_feature_history in
src/features/feature_store.py lines 400-417: the caller's limit is
interpolated into the SQL f-string unchanged. -/
def featureHistoryLimit (limit : Int) : Int := limit

/-- Required columns of an ingested CSV
(src/ingestion/scheduler.py line 38; a Python set, modelled as a list). -/
def requiredCols : List String := ["DOC_NAME", "PAGE_NUM", "CHUNK_ID", "CHUNK_TEXT", "TEXT_LENGTH"]

/-- One parsed CSV row.  `chunkText = none` models a missing or empty
CHUNK_TEXT cell (pandas read_csv turns empty cells into NaN, which
dropna then removes).  `textLength` is the TEXT_LENGTH value as supplied
by the file; the row fields other than the column list are only consulted
after column validation succeeds. -/
structure CsvRow where
  docName : String
  pageNum : Int
  chunkId : String
  chunkText : Option String
  textLength : Int
deriving DecidableEq

/-- A parsed CSV file: its raw column names and its rows. -/
structure CsvFile where
  cols : List String
  rows : List CsvRow
deriving DecidableEq

/-- A candidate file: its name and its content.  The content hash is over
the bytes, never the name. -/
structure IngFile where
  name : String
  content : CsvFile
deriving DecidableEq

/-- file_hash from src/ingestion/scheduler.py lines 72-78: an MD5 digest
of the file bytes.  MD5 is a fixed deterministic function of the content,
so the digest is modelled as the content itself (an injective digest);
what the claims use is only that equal bytes give equal hashes and that
the hash ignores the file name. -/
def file_hash (c : CsvFile) : CsvFile := c

/-- Status column of an INGEST_LOG row; only these two values are ever
written (src/ingestion/scheduler.py lines 147, 156). -/
inductive IngStatus
  | success
  | fail
deriving DecidableEq

/-- One row of the INGEST_LOG table. -/
structure LogRecord where
  ingestId : String
  fileName : String
  fileHash : CsvFile
  rowsIngested : Nat
  status : IngStatus
  errorMsg : String
deriving DecidableEq

/-- Outcome dictionary returned by ingest_csv. -/
inductive Outcome
  | success (rows : Nat)
  | skipped
  | fail (error : String)
deriving DecidableEq

/-- The state the scheduler acts on: the two Snowflake tables and the two
local directories. -/
structure IngestState where
  log : List LogRecord
  chunkTable : List Chunk
  inbox : List IngFile
  done : List IngFile
deriving DecidableEq

/-- already_ingested from src/ingestion/scheduler.py lines 80-89: is there
a `success` log row with this hash? -/
def already_ingested (log : List LogRecord) (h : CsvFile) : Bool :=
  log.any (fun r => decide (r.fileHash = h) && decide (r.status = IngStatus.success))

/-- Python `c.strip().upper()` on one column name
(src/ingestion/scheduler.py line 119). -/
def stripUpper (s : String) : String :=
  String.mk ((((s.data.dropWhile isPyWs).reverse.dropWhile isPyWs).reverse).map Char.toUpper)

/-- Column names after the uppercasing/trimming normalization of
src/ingestion/scheduler.py line 119. -/
def normalizedCols (c : CsvFile) : List String :=
  c.cols.map stripUpper

/-- The required columns absent from the file
(src/ingestion/scheduler.py line 121). -/
def missingColsOf (c : CsvFile) : List String :=
  requiredCols.filter (fun col => !((normalizedCols c).contains col))

/-- Validation error message (src/ingestion/scheduler.py line 123);
the Python set repr of the missing columns is modelled as the
comma-joined list. -/
def missingMsg (missing : List String) : String :=
  "Missing columns: " ++ String.intercalate ", " missing

/-- Data cleaning of src/ingestion/scheduler.py lines 126-127 and row
construction of lines 137-141: rows with missing/empty CHUNK_TEXT are
dropped, and TEXT_LENGTH is recomputed as the character count of the
text, ignoring the value the file supplied. -/
def cleanedRows (c : CsvFile) : List Chunk :=
  (c.rows.filter (fun r => r.chunkText.isSome)).map (fun r =>
    { docName := r.docName, pageNum := r.pageNum, chunkId := r.chunkId,
      chunkText := r.chunkText.getD "", textLength := ((r.chunkText.getD "").length : Int) })

/-- ingest_csv from src/ingestion/scheduler.py lines 105-157, on the
non-exceptional store (the batch insert round trip itself succeeding;
the validation failure path is the raised-and-caught ValueError).
Hash first; a prior success for the hash short-circuits to `skipped`
with no state change at all.  A missing required column appends a `fail`
log row carrying the message and leaves everything else — including the
file's place in the inbox — unchanged.  Otherwise the cleaned rows are
batch-appended to DOC_CHUNKS_FEATURED, a `success` log row is written,
and only then is the file renamed from the inbox into the done
directory. -/
def ingest_csv (st : IngestState) (f : IngFile) (ingestId : String) : IngestState × Outcome :=
  let fhash := file_hash f.content
  if already_ingested st.log fhash then (st, Outcome.skipped)
  else
    let missing := missingColsOf f.content
    if missing.isEmpty then
      let rows := cleanedRows f.content
      ({ log := st.log ++ [{ ingestId := ingestId, fileName := f.name, fileHash := fhash,
                             rowsIngested := rows.length, status := IngStatus.success,
                             errorMsg := "" }],
         chunkTable := st.chunkTable ++ rows,
         inbox := st.inbox.filter (fun g => !(decide (g.name = f.name))),
         done := st.done ++ [f] },
       Outcome.success rows.length)
    else
      ({ st with
         log := st.log ++ [{ ingestId := ingestId, fileName := f.name, fileHash := fhash,
                             rowsIngested := 0, status := IngStatus.fail,
                             errorMsg := missingMsg missing }] },
       Outcome.fail (missingMsg missing))

/-- Number of `success` log rows carrying a given hash. -/
def successCountFor (log : List LogRecord) (h : CsvFile) : Nat :=
  log.countP (fun r => decide (r.fileHash = h) && decide (r.status = IngStatus.success))

/-- Collapse every maximal whitespace run into one space
(re.sub of `\s+` to a single space). -/
def collapseWs : List Char → List Char
  | [] => []
  | [c] => if isPyWs c then [' '] else [c]
  | c :: d :: rest =>
    if isPyWs c && isPyWs d then collapseWs (d :: rest)
    else (if isPyWs c then ' ' else c) :: collapseWs (d :: rest)

/-- Python str.strip(): drop leading and trailing whitespace. -/
def stripEnds (cs : List Char) : List Char :=
  ((cs.dropWhile isPyWs).reverse.dropWhile isPyWs).reverse

/-- Normalization of chunk_text (src/ingestion/01_extract_chunk.py
lines 13-14): NUL bytes become spaces, whitespace runs collapse to one
space, then the ends are stripped. -/
def normalizeText (cs : List Char) : List Char :=
  stripEnds (collapseWs (cs.map (fun c => if c == '\x00' then ' ' else c)))

/-- The while loop of chunk_text (src/ingestion/01_extract_chunk.py
lines 18-26), with an explicit fuel argument standing for the iteration
count: each pass emits text[start:end] with end = min(n, start+chunk_size)
and, unless end reached n, continues from end - overlap.  Whenever
overlap < chunk_size the loop advances by at least one position per pass,
so fuel n+1 from start 0 is never exhausted (the source loop would fail
to terminate when overlap ≥ chunk_size; no claim concerns that case). -/
def chunkLoop (text : List Char) (chunkSize overlap : Nat) : Nat → Nat → List (List Char)
  | _, 0 => []
  | start, fuel + 1 =>
    if start < text.length then
      let e := min text.length (start + chunkSize)
      ((text.drop start).take (e - start)) ::
        (if e = text.length then [] else chunkLoop text chunkSize overlap (e - overlap) fuel)
    else []

/-- The (start, end) index pairs of the chunks the loop emits, over a text
of length n; same recursion as chunkLoop. -/
def chunkSpans (n chunkSize overlap : Nat) : Nat → Nat → List (Nat × Nat)
  | _, 0 => []
  | start, fuel + 1 =>
    if start < n then
      let e := min n (start + chunkSize)
      (start, e) :: (if e = n then [] else chunkSpans n chunkSize overlap (e - overlap) fuel)
    else []

/-- chunk_text from src/ingestion/01_extract_chunk.py lines 12-26:
normalize, return [] on an empty normalized text (the falsy-string early
return), else run the chunking loop from position 0. -/
def chunk_text (t : String) (chunkSize overlap : Nat) : List (List Char) :=
  let txt := normalizeText t.data
  chunkLoop txt chunkSize overlap 0 (txt.length + 1)

/-- The index spans of the chunks chunk_text produces. -/
def chunkSpansOf (t : String) (chunkSize overlap : Nat) : List (Nat × Nat) :=
  let txt := normalizeText t.data
  chunkSpans txt.length chunkSize overlap 0 (txt.length + 1)

/-- Default chunk size (src/ingestion/01_extract_chunk.py line 9). -/
def CHUNK_SIZE : Nat := 1200

/-- Default overlap (src/ingestion/01_extract_chunk.py line 10). -/
def OVERLAP : Nat := 200

/-- Fixture: a well-formed CSV with one good row (whose supplied
TEXT_LENGTH of 99 is wrong on purpose) and one row with a missing
CHUNK_TEXT cell. -/
def sampleCsv : CsvFile :=
  { cols := ["DOC_NAME", "PAGE_NUM", "CHUNK_ID", "CHUNK_TEXT", "TEXT_LENGTH"],
    rows := [{ docName := "doc.pdf", pageNum := 1, chunkId := "c1",
               chunkText := some "hello world", textLength := 99 },
             { docName := "doc.pdf", pageNum := 1, chunkId := "c2",
               chunkText := none, textLength := 4 }] }

/-- Fixture: a CSV whose CHUNK_TEXT column is absent. -/
def badCsv : CsvFile :=
  { cols := ["DOC_NAME", "PAGE_NUM", "CHUNK_ID", "TEXT_LENGTH"],
    rows := [{ docName := "d", pageNum := 1, chunkId := "c1",
               chunkText := some "x", textLength := 1 }] }

/-- Fixture: a scheduler state whose log already holds a success record
for the hash of sampleCsv, with a same-content file waiting in the inbox
under another name. -/
def priorState : IngestState :=
  { log := [{ ingestId := "ing-1", fileName := "f1.csv", fileHash := sampleCsv,
              rowsIngested := 1, status := IngStatus.success, errorMsg := "" }],
    chunkTable := [], inbox := [{ name := "f2.csv", content := sampleCsv }], done := [] }

/-- Fixture: an empty scheduler state with sampleCsv waiting in the inbox. -/
def freshState : IngestState :=
  { log := [], chunkTable := [], inbox := [{ name := "a.csv", content := sampleCsv }], done := [] }

/-- Fixture: an empty scheduler state with badCsv waiting in the inbox. -/
def badState : IngestState :=
  { log := [], chunkTable := [], inbox := [{ name := "b.csv", content := badCsv }], done := [] }

/-- Fixture: one row of the corpus, for concrete retrieval calls. -/
def sampleChunk : Chunk :=
  { docName := "d", pageNum := 1, chunkId := "c1",
    chunkText := "Parking permits cost money", textLength := 26 }

/-! Helper lemmas about the dedup loop of the keyword extractor. -/

/-- Everything emitted by the dedup loop comes from its input list. -/
theorem dedupAux_sublist : ∀ (l seen : List String), List.Sublist (dedupAux seen l) l := by
  intro l
  induction l with
  | nil => intro seen; simp [dedupAux]
  | cons t rest ih =>
    intro seen
    simp only [dedupAux]
    by_cases hts : t ∈ seen
    · rw [if_pos hts]
      exact (ih seen).trans (List.sublist_cons_self t rest)
    · rw [if_neg hts]
      exact (ih (t :: seen)).cons₂ t

/-- Elements emitted by the dedup loop are in the input and not in `seen`. -/
theorem mem_dedupAux : ∀ (l seen : List String) (a : String),
    a ∈ dedupAux seen l → a ∈ l ∧ a ∉ seen := by
  intro l
  induction l with
  | nil => intro seen a h; simp [dedupAux] at h
  | cons t rest ih =>
    intro seen a h
    simp only [dedupAux] at h
    by_cases hts : t ∈ seen
    · rw [if_pos hts] at h
      obtain ⟨h1, h2⟩ := ih seen a h
      exact ⟨List.mem_cons_of_mem _ h1, h2⟩
    · rw [if_neg hts] at h
      rcases List.mem_cons.1 h with h1 | h1
      · subst h1; exact ⟨List.mem_cons_self _ _, hts⟩
      · obtain ⟨h1', h2'⟩ := ih (t :: seen) a h1
        exact ⟨List.mem_cons_of_mem _ h1', fun hs => h2' (List.mem_cons_of_mem _ hs)⟩

/-- The dedup loop emits no duplicates. -/
theorem dedupAux_nodup : ∀ (l seen : List String), (dedupAux seen l).Nodup := by
  intro l
  induction l with
  | nil => intro seen; simp [dedupAux]
  | cons t rest ih =>
    intro seen
    simp only [dedupAux]
    by_cases hts : t ∈ seen
    · rw [if_pos hts]; exact ih seen
    · rw [if_neg hts]
      refine List.nodup_cons.2 ⟨fun hmem => ?_, ih (t :: seen)⟩
      exact (mem_dedupAux rest (t :: seen) t hmem).2 (List.mem_cons_self _ _)

/-- The dedup loop emits elements in order of their first occurrence in
its input list. -/
theorem dedupAux_pairwise : ∀ (l seen : List String),
    (dedupAux seen l).Pairwise (fun a b => List.indexOf a l < List.indexOf b l) := by
  intro l
  induction l with
  | nil => intro seen; simp [dedupAux]
  | cons t rest ih =>
    intro seen
    simp only [dedupAux]
    by_cases hts : t ∈ seen
    · rw [if_pos hts]
      refine (ih seen).imp_of_mem ?_
      intro a b ha hb hab
      have hat : t ≠ a := fun e => (mem_dedupAux rest seen a ha).2 (by rw [← e]; exact hts)
      have hbt : t ≠ b := fun e => (mem_dedupAux rest seen b hb).2 (by rw [← e]; exact hts)
      rw [List.indexOf_cons_ne rest hat, List.indexOf_cons_ne rest hbt]
      omega
    · rw [if_neg hts]
      refine List.pairwise_cons.2 ⟨?_, ?_⟩
      · intro b hb
        have hbt : t ≠ b := fun e =>
          (mem_dedupAux rest (t :: seen) b hb).2 (by rw [← e]; exact List.mem_cons_self t seen)
        rw [List.indexOf_cons_self, List.indexOf_cons_ne rest hbt]
        exact Nat.succ_pos _
      · refine (ih (t :: seen)).imp_of_mem ?_
        intro a b ha hb hab
        have hat : t ≠ a := fun e =>
          (mem_dedupAux rest (t :: seen) a ha).2 (by rw [← e]; exact List.mem_cons_self t seen)
        have hbt : t ≠ b := fun e =>
          (mem_dedupAux rest (t :: seen) b hb).2 (by rw [← e]; exact List.mem_cons_self t seen)
        rw [List.indexOf_cons_ne rest hat, List.indexOf_cons_ne rest hbt]
        omega

/-- First-occurrence order inside a filtered list implies first-occurrence
order in the unfiltered list. -/
theorem indexOf_filter_lt (p : String → Bool) :
    ∀ (l : List String) (a b : String), a ∈ l.filter p → b ∈ l.filter p →
      List.indexOf a (l.filter p) < List.indexOf b (l.filter p) →
      List.indexOf a l < List.indexOf b l := by
  intro l
  induction l with
  | nil => intro a b ha _ _; simp at ha
  | cons c rest ih =>
    intro a b ha hb h
    by_cases hc : p c = true
    · rw [List.filter_cons_of_pos hc] at ha hb h
      by_cases hac : a = c
      · subst hac
        have hba : a ≠ b := by
          intro e; rw [← e, List.indexOf_cons_self] at h; omega
        rw [List.indexOf_cons_self, List.indexOf_cons_ne rest hba]
        omega
      · have hca : c ≠ a := fun e => hac e.symm
        by_cases hbc : b = c
        · subst hbc
          rw [List.indexOf_cons_self, List.indexOf_cons_ne _ hca] at h
          omega
        · have hcb : c ≠ b := fun e => hbc e.symm
          have ha' : a ∈ rest.filter p := by
            rcases List.mem_cons.1 ha with e | e
            · exact absurd e hac
            · exact e
          have hb' : b ∈ rest.filter p := by
            rcases List.mem_cons.1 hb with e | e
            · exact absurd e hbc
            · exact e
          rw [List.indexOf_cons_ne _ hca, List.indexOf_cons_ne _ hcb] at h ⊢
          have := ih a b ha' hb' (by omega)
          omega
    · rw [List.filter_cons_of_neg hc] at ha hb h
      have hca : c ≠ a := fun e => hc (by rw [e]; exact (List.mem_filter.1 ha).2)
      have hcb : c ≠ b := fun e => hc (by rw [e]; exact (List.mem_filter.1 hb).2)
      rw [List.indexOf_cons_ne _ hca, List.indexOf_cons_ne _ hcb]
      have := ih a b ha hb h
      omega

/-! Claim theorems. -/

/-- C2 counterexample: on the query `How much is a parking permit?` with
the default max_terms of 6, the extractor does NOT return
`[much, parking, permit]` — the token `much` is itself in the stopword
set (src/app/app.py line 42) and is filtered out. -/
theorem extract_keywords_parking_counterexample :
    extract_keywords "How much is a parking permit?" 6 ≠ ["much", "parking", "permit"] := by
  decide

/-- C2 (amended): on the query `How much is a parking permit?` with the
default max_terms of 6, the extractor returns exactly `[parking, permit]`
in that order (`how`, `much`, `is`, `a` are stopwords). -/
theorem extract_keywords_parking_amended :
    extract_keywords "How much is a parking permit?" 6 = ["parking", "permit"] := by
  decide

/-- C4 (amended): for every input string and every NON-NEGATIVE max_terms,
the extractor returns at most max_terms terms, the terms are pairwise
distinct, and they appear in the order of their first occurrence in the
lowercased, tokenized input.  (For a negative max_terms the Python slice
`uniq[:max_terms]` drops trailing elements instead of bounding the count,
so the length bound fails — see the counterexample.) -/
theorem extract_keywords_shape (q : String) (m : Int) (hm : 0 ≤ m) :
    ((extract_keywords q m).length : Int) ≤ m ∧
    (extract_keywords q m).Nodup ∧
    (extract_keywords q m).Pairwise
      (fun a b => List.indexOf a (tokensOf q) < List.indexOf b (tokensOf q)) := by
  have hslice : extract_keywords q m
      = (dedupAux [] ((tokensOf q).filter keepTerm)).take m.toNat := by
    simp [extract_keywords, pySliceTo, hm]
  have hsub : List.Sublist (extract_keywords q m)
      (dedupAux [] ((tokensOf q).filter keepTerm)) := by
    rw [hslice]; exact List.take_sublist _ _
  refine ⟨?_, ?_, ?_⟩
  · rw [hslice]
    have hl := List.length_take m.toNat (dedupAux [] ((tokensOf q).filter keepTerm))
    have h2 : (m.toNat : Int) = m := Int.toNat_of_nonneg hm
    omega
  · exact (dedupAux_nodup ((tokensOf q).filter keepTerm) []).sublist hsub
  · have hp := (dedupAux_pairwise ((tokensOf q).filter keepTerm) []).sublist hsub
    refine hp.imp_of_mem ?_
    intro a b ha hb hab
    have ha' : a ∈ (tokensOf q).filter keepTerm :=
      (mem_dedupAux _ [] a (hsub.subset ha)).1
    have hb' : b ∈ (tokensOf q).filter keepTerm :=
      (mem_dedupAux _ [] b (hsub.subset hb)).1
    exact indexOf_filter_lt keepTerm (tokensOf q) a b ha' hb' hab

/-- C4 witness: the shape theorem instantiated on a concrete query with a
repeated keyword. -/
theorem extract_keywords_shape_witness :
    (0 : Int) ≤ 6 ∧
    (((extract_keywords "parking permit parking fee" 6).length : Int) ≤ 6 ∧
      (extract_keywords "parking permit parking fee" 6).Nodup ∧
      (extract_keywords "parking permit parking fee" 6).Pairwise
        (fun a b => List.indexOf a (tokensOf "parking permit parking fee")
          < List.indexOf b (tokensOf "parking permit parking fee"))) :=
  ⟨by norm_num, extract_keywords_shape "parking permit parking fee" 6 (by norm_num)⟩

/-- C4 counterexample: with the negative max_terms of -1 the Python slice
keeps all but the last deduplicated term, so the result has more than
max_terms entries. -/
theorem extract_keywords_negative_max_counterexample :
    extract_keywords "alpha beta" (-1) = ["alpha"] ∧
    ¬ (((extract_keywords "alpha beta" (-1)).length : Int) ≤ -1) := by
  constructor
  · decide
  · decide

/-- C5: whenever the extractor yields no terms, _run_retrieval returns the
empty result list together with the empty term list, performs no row-store
access (and, the branch being a plain early return, raises nothing). -/
theorem runRetrieval_empty_terms (store : List Chunk) (q : String) (topk : Int)
    (h : extract_keywords q 6 = []) :
    runRetrieval store q topk = { rows := [], terms := [], storeAccessed := false } := by
  simp [runRetrieval, h]

/-- C5 witness: a query made only of stopwords and short tokens. -/
theorem runRetrieval_empty_terms_witness :
    extract_keywords "how is it" 6 = [] ∧
    runRetrieval [sampleChunk] "how is it" 5
      = { rows := [], terms := [], storeAccessed := false } :=
  ⟨by decide, runRetrieval_empty_terms [sampleChunk] "how is it" 5 (by decide)⟩

/-- C3 (amended): _run_retrieval performs no topk validation at all — for
every non-positive topk, whenever the extracted terms are non-empty the
row-store query is still executed, with the non-positive value
interpolated into the SQL LIMIT; no InvalidArgument-class rejection
happens before the I/O. -/
theorem runRetrieval_no_topk_validation (store : List Chunk) (q : String) (topk : Int)
    (_htopk : topk ≤ 0) (hq : extract_keywords q 6 ≠ []) :
    (runRetrieval store q topk).storeAccessed = true := by
  simp [runRetrieval, List.isEmpty_iff, hq]

/-- C3 witness: the no-validation theorem instantiated at topk 0. -/
theorem runRetrieval_no_topk_validation_witness :
    (0 : Int) ≤ 0 ∧ extract_keywords "parking fees" 6 ≠ [] ∧
    (runRetrieval [sampleChunk] "parking fees" 0).storeAccessed = true :=
  ⟨le_refl 0, by decide,
    runRetrieval_no_topk_validation [sampleChunk] "parking fees" 0 (le_refl 0) (by decide)⟩

/-- C3 counterexample: a concrete call with the non-positive topk 0 whose
row-store round trip is performed — it is not rejected before I/O, and no
InvalidArgument-class error channel exists in the function at all. -/
theorem runRetrieval_topk_zero_counterexample :
    (runRetrieval [sampleChunk] "parking permit" 0).storeAccessed = true := by
  decide

/-- C6: an evaluation-record write with an empty retrieval result set
records avg_score, max_score and min_score all exactly 0 (a literal, never
a null/NaN — the score fields are total Rat values here) and
rows_returned 0, and is a single append to the table. -/
theorem log_eval_empty_results (table : List EvalRecord)
    (evalId runId version queryRaw : String) (scores : List Int)
    (latencyMs keywordCount topk : Int) (h : scores = []) :
    log_eval table evalId runId version queryRaw scores latencyMs keywordCount topk
      = table ++ [mkEvalRecord evalId runId version queryRaw scores latencyMs keywordCount topk] ∧
    (mkEvalRecord evalId runId version queryRaw scores latencyMs keywordCount topk).rowsReturned = 0 ∧
    (mkEvalRecord evalId runId version queryRaw scores latencyMs keywordCount topk).avgScore = 0 ∧
    (mkEvalRecord evalId runId version queryRaw scores latencyMs keywordCount topk).maxScore = 0 ∧
    (mkEvalRecord evalId runId version queryRaw scores latencyMs keywordCount topk).minScore = 0 := by
  subst h
  refine ⟨rfl, ?_, ?_, ?_, ?_⟩ <;> simp [mkEvalRecord]

/-- C6 witness: the empty-results theorem at concrete arguments. -/
theorem log_eval_empty_results_witness :
    ([] : List Int) = [] ∧
    (mkEvalRecord "eval-1" "run-1" "v1" "campus wifi" [] 12 0 8).avgScore = 0 ∧
    (mkEvalRecord "eval-1" "run-1" "v1" "campus wifi" [] 12 0 8).rowsReturned = 0 :=
  ⟨rfl,
    (log_eval_empty_results [] "eval-1" "run-1" "v1" "campus wifi" [] 12 0 8 rfl).2.2.1,
    (log_eval_empty_results [] "eval-1" "run-1" "v1" "campus wifi" [] 12 0 8 rfl).2.1⟩

/-- C9 (amended): only the patched history read
(src/modeling/evaluator.py load_metrics_history) clamps its limit into
[1, 1000]; for that one the effective bound is always a positive integer
at most 1000. -/
theorem modeling_history_limit_clamped (limit : Int) :
    1 ≤ modelingHistoryLimit limit ∧ modelingHistoryLimit limit ≤ 1000 := by
  unfold modelingHistoryLimit
  constructor
  · exact le_max_left 1 (min limit 1000)
  · exact max_le (by norm_num) (min_le_right limit 1000)

/-- C9 counterexample: the history reads of src/evaluator.py and
src/features/feature_store.py interpolate the caller's limit into the SQL
unclamped, so a limit of 5000 (above the bound) and a limit of 0 (below
it) are used as given. -/
theorem history_limit_counterexample :
    evaluatorHistoryLimit 5000 = 5000 ∧ ¬ (evaluatorHistoryLimit 5000 ≤ 1000) ∧
    featureHistoryLimit 0 = 0 ∧ ¬ (1 ≤ featureHistoryLimit 0) := by
  refine ⟨rfl, ?_, rfl, ?_⟩ <;> decide

/-- C1: if the log already holds a success record for the hash of some
content, ingesting that content again — under any file name and ingest
id — returns `skipped` and leaves the whole state untouched: no chunk
insert, no new log record of any kind, the file neither moved to done nor
deleted.  Moreover (the second conjunct) any run that ends in `success`
leaves a state in which the dedup check fires for that content, with
exactly one more success record for its hash and exactly one batch of its
cleaned rows appended — so ingesting the same bytes twice yields one
success record and no duplicate chunk insertion. -/
theorem ingest_csv_dedup (st : IngestState) (c : CsvFile) (name ingestId : String)
    (h : already_ingested st.log (file_hash c) = true) :
    ingest_csv st { name := name, content := c } ingestId = (st, Outcome.skipped) ∧
    (∀ (st0 st1 : IngestState) (n1 id1 : String) (k : Nat),
      ingest_csv st0 { name := n1, content := c } id1 = (st1, Outcome.success k) →
        already_ingested st1.log (file_hash c) = true ∧
        successCountFor st1.log (file_hash c) = successCountFor st0.log (file_hash c) + 1 ∧
        st1.chunkTable = st0.chunkTable ++ cleanedRows c) := by
  constructor
  · simp [ingest_csv, h]
  · intro st0 st1 n1 id1 k h1
    cases hA : already_ingested st0.log (file_hash c) with
    | true => simp [ingest_csv, hA] at h1
    | false =>
      cases hM : (missingColsOf c).isEmpty with
      | false => simp [ingest_csv, hA, hM] at h1
      | true =>
        simp only [ingest_csv, hA, hM, Bool.false_eq_true, if_false, if_true,
          Prod.mk.injEq, Outcome.success.injEq] at h1
        obtain ⟨hst, hk⟩ := h1
        subst hst
        refine ⟨?_, ?_, rfl⟩
        · simp [already_ingested, List.any_append, file_hash]
        · simp [successCountFor, List.countP_append, List.countP_cons, file_hash]

/-- C1 witness: the dedup theorem on a state whose log already records a
success for the content of sampleCsv, re-ingested under another name. -/
theorem ingest_csv_dedup_witness :
    already_ingested priorState.log (file_hash sampleCsv) = true ∧
    ingest_csv priorState { name := "f2.csv", content := sampleCsv } "ing-2"
      = (priorState, Outcome.skipped) :=
  ⟨by decide, (ingest_csv_dedup priorState sampleCsv "f2.csv" "ing-2" (by decide)).1⟩

/-- C7: ingesting a file missing at least one required column (after
uppercasing/trimming of the column names) yields a `fail` outcome whose
message carries the missing columns, appends exactly one `fail` log
record with that message, inserts nothing into the chunk table, and
leaves both directories — in particular the file's place in the inbox —
unchanged; every absent required column is listed. -/
theorem ingest_csv_missing_cols (st : IngestState) (f : IngFile) (ingestId : String)
    (hA : already_ingested st.log (file_hash f.content) = false)
    (hM : missingColsOf f.content ≠ []) :
    ingest_csv st f ingestId =
      ({ st with log := st.log ++ [{ ingestId := ingestId, fileName := f.name,
                                     fileHash := file_hash f.content, rowsIngested := 0,
                                     status := IngStatus.fail,
                                     errorMsg := missingMsg (missingColsOf f.content) }] },
       Outcome.fail (missingMsg (missingColsOf f.content))) ∧
    (ingest_csv st f ingestId).1.chunkTable = st.chunkTable ∧
    (ingest_csv st f ingestId).1.inbox = st.inbox ∧
    (ingest_csv st f ingestId).1.done = st.done ∧
    (∀ col ∈ requiredCols, col ∉ normalizedCols f.content → col ∈ missingColsOf f.content) := by
  have hM' : (missingColsOf f.content).isEmpty = false := by
    cases hemp : missingColsOf f.content with
    | nil => exact absurd hemp hM
    | cons x xs => simp [hemp]
  refine ⟨?_, ?_, ?_, ?_, ?_⟩
  · simp [ingest_csv, hA, hM']
  · simp [ingest_csv, hA, hM']
  · simp [ingest_csv, hA, hM']
  · simp [ingest_csv, hA, hM']
  · intro col hc hn
    simp only [missingColsOf, List.mem_filter]
    exact ⟨hc, by simp [hn]⟩

/-- C7 witness: the validation-failure theorem on a CSV lacking
CHUNK_TEXT, giving the concrete fail outcome with the concrete message. -/
theorem ingest_csv_missing_cols_witness :
    already_ingested badState.log (file_hash badCsv) = false ∧
    missingColsOf badCsv = ["CHUNK_TEXT"] ∧
    (ingest_csv badState { name := "b.csv", content := badCsv } "ing-3").2
      = Outcome.fail "Missing columns: CHUNK_TEXT" :=
  ⟨by decide, by decide, by
    rw [(ingest_csv_missing_cols badState { name := "b.csv", content := badCsv } "ing-3"
      (by decide) (by decide)).1]
    decide⟩

/-- C8: on a successfully validated file, the store insert is exactly the
batch of cleaned rows appended to the chunk table; every row whose text
cell was missing/empty has been dropped (the batch length equals the
count of rows with a present text cell), and every inserted row carries a
text_length recomputed as the character count of its chunk text — each
inserted row comes from an input row whose text cell held exactly that
text, the file's TEXT_LENGTH value being ignored. -/
theorem ingest_csv_clean_rows (st : IngestState) (f : IngFile) (ingestId : String)
    (hA : already_ingested st.log (file_hash f.content) = false)
    (hM : missingColsOf f.content = []) :
    (ingest_csv st f ingestId).1.chunkTable = st.chunkTable ++ cleanedRows f.content ∧
    (ingest_csv st f ingestId).2 = Outcome.success (cleanedRows f.content).length ∧
    (∀ ch ∈ cleanedRows f.content,
        ch.textLength = (ch.chunkText.length : Int) ∧
        ∃ r ∈ f.content.rows, r.chunkText = some ch.chunkText) ∧
    (cleanedRows f.content).length
      = (f.content.rows.filter (fun r => r.chunkText.isSome)).length := by
  have hM' : (missingColsOf f.content).isEmpty = true := by simp [hM]
  refine ⟨?_, ?_, ?_, ?_⟩
  · simp [ingest_csv, hA, hM']
  · simp [ingest_csv, hA, hM']
  · intro ch hch
    simp only [cleanedRows, List.mem_map] at hch
    obtain ⟨r, hr, hmk⟩ := hch
    obtain ⟨hrmem, hrsome⟩ := List.mem_filter.1 hr
    obtain ⟨x, hx⟩ := Option.isSome_iff_exists.1 hrsome
    subst hmk
    constructor
    · rfl
    · exact ⟨r, hrmem, by simp [hx]⟩
  · simp [cleanedRows]

/-- C8 witness: ingesting sampleCsv from an empty state keeps only the
row with a present text cell and stores its recomputed length 11, not the
supplied 99. -/
theorem ingest_csv_clean_rows_witness :
    already_ingested freshState.log (file_hash sampleCsv) = false ∧
    missingColsOf sampleCsv = [] ∧
    (ingest_csv freshState { name := "a.csv", content := sampleCsv } "ing-4").1.chunkTable
      = [{ docName := "doc.pdf", pageNum := 1, chunkId := "c1",
           chunkText := "hello world", textLength := 11 }] :=
  ⟨by decide, by decide, by
    rw [(ingest_csv_clean_rows freshState { name := "a.csv", content := sampleCsv } "ing-4"
      (by decide) (by decide)).1]
    decide⟩

/-! Helper lemmas about the chunking loop. -/

/-- The chunks the loop emits are exactly the slices of its spans. -/
theorem chunkLoop_eq_spans (text : List Char) (cs ov : Nat) :
    ∀ (fuel start : Nat),
      chunkLoop text cs ov start fuel
        = (chunkSpans text.length cs ov start fuel).map
            (fun sp => (text.drop sp.1).take (sp.2 - sp.1)) := by
  intro fuel
  induction fuel with
  | zero => intro start; simp [chunkLoop, chunkSpans]
  | succ m ih =>
    intro start
    simp only [chunkLoop, chunkSpans]
    by_cases hs : start < text.length
    · rw [if_pos hs, if_pos hs]
      simp only [List.map_cons]
      by_cases he : min text.length (start + cs) = text.length
      · rw [if_pos he, if_pos he]; simp
      · rw [if_neg he, if_neg he, ih]
    · rw [if_neg hs, if_neg hs]; simp

/-- Whenever overlap < chunk size, every span the loop emits starts no
earlier than the loop's start position, is non-degenerate, ends within
the text, and is at most one chunk size wide. -/
theorem chunkSpans_bounds (n cs ov : Nat) (hov : ov < cs) :
    ∀ (fuel start : Nat), ∀ sp ∈ chunkSpans n cs ov start fuel,
      start ≤ sp.1 ∧ sp.1 < sp.2 ∧ sp.2 ≤ n ∧ sp.2 - sp.1 ≤ cs := by
  intro fuel
  induction fuel with
  | zero => intro start sp hsp; simp [chunkSpans] at hsp
  | succ m ih =>
    intro start sp hsp
    simp only [chunkSpans] at hsp
    by_cases hs : start < n
    · rw [if_pos hs] at hsp
      rcases List.mem_cons.1 hsp with he | htail
      · rw [he]
        simp only
        omega
      · by_cases he : min n (start + cs) = n
        · rw [if_pos he] at htail
          simp at htail
        · rw [if_neg he] at htail
          have hrec := ih (min n (start + cs) - ov) sp htail
          omega
    · rw [if_neg hs] at hsp
      simp at hsp

/-- Whenever overlap < chunk size and the fuel covers the remaining
distance, every position from the loop's start to the end of the text is
covered by some emitted span. -/
theorem chunkSpans_cover (n cs ov : Nat) (hov : ov < cs) :
    ∀ (fuel start : Nat), n ≤ fuel + start →
      ∀ p, start ≤ p → p < n →
        ∃ sp ∈ chunkSpans n cs ov start fuel, sp.1 ≤ p ∧ p < sp.2 := by
  intro fuel
  induction fuel with
  | zero => intro start hf p hp1 hp2; omega
  | succ m ih =>
    intro start hf p hp1 hp2
    have hs : start < n := lt_of_le_of_lt hp1 hp2
    simp only [chunkSpans, if_pos hs]
    by_cases hpe : p < min n (start + cs)
    · exact ⟨(start, min n (start + cs)), List.mem_cons_self _ _, hp1, hpe⟩
    · have he : min n (start + cs) ≠ n := by omega
      rw [if_neg he]
      obtain ⟨sp, hmem, h1, h2⟩ :=
        ih (min n (start + cs) - ov) (by omega) p (by omega) hp2
      exact ⟨sp, List.mem_cons_of_mem _ hmem, h1, h2⟩

/-- C10: with overlap strictly below chunk size and a non-empty
normalized text, chunk_text returns a non-empty list of chunks, each
chunk is the slice of its span, each chunk is non-empty and at most
chunk_size characters long, every character position of the normalized
text lies inside at least one span, and an input whose normalized form
is empty (e.g. empty or whitespace-only) yields the empty list.  The
loop's fuel of length+1 is never exhausted — the spans reach the end of
the text, which is the loop's termination argument. -/
theorem chunk_text_spec (t : String) (cs ov : Nat) (hov : ov < cs)
    (hne : normalizeText t.data ≠ []) :
    chunk_text t cs ov ≠ [] ∧
    chunk_text t cs ov
      = (chunkSpansOf t cs ov).map
          (fun sp => ((normalizeText t.data).drop sp.1).take (sp.2 - sp.1)) ∧
    (∀ c ∈ chunk_text t cs ov, c ≠ [] ∧ c.length ≤ cs) ∧
    (∀ p < (normalizeText t.data).length,
        ∃ sp ∈ chunkSpansOf t cs ov, sp.1 ≤ p ∧ p < sp.2) ∧
    (∀ s : String, normalizeText s.data = [] → chunk_text s cs ov = []) := by
  have hn : 0 < (normalizeText t.data).length := List.length_pos.2 hne
  have heq : chunk_text t cs ov
      = (chunkSpansOf t cs ov).map
          (fun sp => ((normalizeText t.data).drop sp.1).take (sp.2 - sp.1)) := by
    simp only [chunk_text, chunkSpansOf]
    exact chunkLoop_eq_spans (normalizeText t.data) cs ov ((normalizeText t.data).length + 1) 0
  refine ⟨?_, heq, ?_, ?_, ?_⟩
  · simp only [chunk_text, chunkLoop, if_pos hn]
    simp
  · intro c hc
    rw [heq] at hc
    obtain ⟨sp, hsp, hcs⟩ := List.mem_map.1 hc
    have hb := chunkSpans_bounds (normalizeText t.data).length cs ov hov
      ((normalizeText t.data).length + 1) 0 sp hsp
    have hlen : c.length = min (sp.2 - sp.1) ((normalizeText t.data).length - sp.1) := by
      rw [← hcs]
      simp [List.length_take, List.length_drop]
    constructor
    · have : 0 < c.length := by omega
      exact List.ne_nil_of_length_pos this
    · omega
  · intro p hp
    exact chunkSpans_cover (normalizeText t.data).length cs ov hov
      ((normalizeText t.data).length + 1) 0 (by omega) p (Nat.zero_le p) hp
  · intro s hs
    simp [chunk_text, hs, chunkLoop]

/-- C10 witness: the chunking theorem at chunk size 3 and overlap 1 on a
concrete 8-character normalized text, whose chunks are also computed
outright. -/
theorem chunk_text_spec_witness :
    (1 < 3) ∧ normalizeText ("ab cd ef".data) ≠ [] ∧
    chunk_text "ab cd ef" 3 1 ≠ [] ∧
    chunk_text "ab cd ef" 3 1 = ["ab ".data, " cd".data, "d e".data, "ef".data] ∧
    chunkSpansOf "ab cd ef" 3 1 = [(0, 3), (2, 5), (4, 7), (6, 8)] :=
  ⟨by decide, by decide, (chunk_text_spec "ab cd ef" 3 1 (by decide) (by decide)).1,
    by decide, by decide⟩

end SmartCampus
